import Mathlib

/-!
Verification of battlestar_envoy_grapher.py against its specification.

Each Python function relevant to the claims is translated into a Lean
definition (shallow embedding): pure string manipulation becomes pure
functions over List Char / String, the on-disk cache becomes an explicit
store passed in and out, the defaultdict holding the adjacency relation
becomes an explicit structure with a key set and a value map, and the
recursive graph builder becomes a fuel-indexed recursive function whose
invariants are proved for every fuel value.
-/

namespace BattlestarGrapher

/-! ### NameNormalizer: simplify_service_name (source lines 103-110)

The source tests re.search with pattern dash-digits-end, then calls
service.rstrip with the character set dash plus the ten ASCII digits.
-/

/-- Characters removed by the Python rstrip call with the set
dash, 0, 1, ..., 9. -/
def isStripChar (c : Char) : Bool := c == '-' || c.isDigit

/-- The regex test: the name ends in a hyphen followed by one or more
digits. Viewed from the reversed list: a nonempty run of digits, then a
hyphen. (ASCII digits; the role names at hand are ASCII.) -/
def endsDashDigits (l : List Char) : Bool :=
  !(l.reverse.takeWhile Char.isDigit).isEmpty &&
    ((l.reverse.dropWhile Char.isDigit).head? == some '-')

/-- Python rstrip with the dash/digit character set: drop the longest
trailing run of such characters. -/
def rstripDashDigits (l : List Char) : List Char :=
  (l.reverse.dropWhile isStripChar).reverse

/-- simplify_service_name from the source: if the name ends in
dash-then-digits, strip all trailing dash/digit characters, else return
the name unchanged. -/
def simplify_service_name (s : String) : String :=
  if endsDashDigits s.data then ⟨rstripDashDigits s.data⟩ else s

lemma head?_dropWhile_false {α} (p : α → Bool) :
    ∀ (l : List α) (c : α), (l.dropWhile p).head? = some c → p c = false := by
  intro l
  induction l with
  | nil => intro c h; simp [List.dropWhile] at h
  | cons a t ih =>
      intro c h
      by_cases hp : p a
      · rw [List.dropWhile_cons_of_pos hp] at h
        exact ih c h
      · rw [List.dropWhile_cons_of_neg hp] at h
        simp at h
        rw [← h]
        simpa using hp

lemma takeWhile_head_of_not_isEmpty {α} (p : α → Bool) (l : List α)
    (h : (l.takeWhile p).isEmpty = false) :
    ∃ c t, l = c :: t ∧ p c = true := by
  cases l with
  | nil => simp [List.takeWhile] at h
  | cons a t =>
      by_cases hp : p a
      · exact ⟨a, t, rfl, hp⟩
      · rw [List.takeWhile_cons_of_neg hp] at h
        simp at h

/-- After stripping the trailing dash/digit run, no string still ends in
dash-then-digits. -/
lemma endsDashDigits_rstrip (l : List Char) :
    endsDashDigits (rstripDashDigits l) = false := by
  unfold endsDashDigits rstripDashDigits
  rw [List.reverse_reverse]
  cases hd : l.reverse.dropWhile isStripChar with
  | nil => simp
  | cons c t =>
      have hc : isStripChar c = false :=
        head?_dropWhile_false isStripChar l.reverse c (by rw [hd]; rfl)
      have hdig : c.isDigit = false := by
        unfold isStripChar at hc
        exact (Bool.or_eq_false_iff.mp hc).2
      rw [List.takeWhile_cons_of_neg (by simp [hdig])]
      simp

/-- Normalization is idempotent. -/
lemma simplify_idem (s : String) :
    simplify_service_name (simplify_service_name s) = simplify_service_name s := by
  by_cases h : endsDashDigits s.data
  · have hs : simplify_service_name s = ⟨rstripDashDigits s.data⟩ := by
      unfold simplify_service_name
      rw [if_pos h]
    rw [hs]
    show simplify_service_name ⟨rstripDashDigits s.data⟩ = _
    unfold simplify_service_name
    rw [if_neg]
    show ¬ endsDashDigits (String.data ⟨rstripDashDigits s.data⟩) = true
    show ¬ endsDashDigits (rstripDashDigits s.data) = true
    simp [endsDashDigits_rstrip]
  · have hs : simplify_service_name s = s := by
      unfold simplify_service_name
      rw [if_neg]
      simpa using h
    rw [hs, hs]

/-- Claim C6 counterexample: the source (and its own unit tests) collapse
svc-1-2 all the way to svc, not to svc-1 as a single-suffix strip would. -/
theorem claim_C6_counterexample :
    simplify_service_name "svc-1-2" = "svc" ∧ ("svc" : String) ≠ "svc-1" := by
  constructor
  · rfl
  · decide

/-- Claim C6 (amended): for every string that ends in a hyphen followed by
one or more digits, simplify_service_name removes the maximal trailing run
of hyphen/digit characters (which may span several dash-digit groups and
digits preceding the final hyphen), leaving a result whose last character,
if any, is neither a hyphen nor a digit; every string not of that shape is
returned unchanged. -/
theorem claim_C6_amended (s : String) :
    (endsDashDigits s.data = true →
      ∃ u, s.data = (simplify_service_name s).data ++ u ∧ u ≠ [] ∧
        (∀ c ∈ u, isStripChar c = true) ∧
        ∀ c, (simplify_service_name s).data.getLast? = some c → isStripChar c = false) ∧
    (endsDashDigits s.data = false → simplify_service_name s = s) := by
  constructor
  · intro h
    have hs : (simplify_service_name s).data = rstripDashDigits s.data := by
      unfold simplify_service_name
      rw [if_pos h]
    refine ⟨(s.data.reverse.takeWhile isStripChar).reverse, ?_, ?_, ?_, ?_⟩
    · rw [hs]
      unfold rstripDashDigits
      rw [← List.reverse_append, List.takeWhile_append_dropWhile, List.reverse_reverse]
    · have h1 : (s.data.reverse.takeWhile Char.isDigit).isEmpty = false := by
        unfold endsDashDigits at h
        have := (Bool.and_eq_true _ _).mp h
        simpa using this.1
      obtain ⟨c, t, hct, hcd⟩ := takeWhile_head_of_not_isEmpty Char.isDigit s.data.reverse h1
      have hstrip : isStripChar c = true := by simp [isStripChar, hcd]
      rw [hct, List.takeWhile_cons_of_pos hstrip]
      simp
    · intro c hc
      rw [List.mem_reverse] at hc
      exact List.mem_takeWhile_imp hc
    · intro c hc
      rw [hs] at hc
      unfold rstripDashDigits at hc
      rw [List.getLast?_reverse] at hc
      exact head?_dropWhile_false isStripChar s.data.reverse c hc
  · intro h
    unfold simplify_service_name
    rw [if_neg]
    simp [h]

/-- Claim C6 amended witness: the amended statement evaluated at the
concrete inputs svc-1-2 (matching) and nodigits (not matching). -/
theorem claim_C6_amended_witness :
    (∃ u, "svc-1-2".data = (simplify_service_name "svc-1-2").data ++ u ∧ u ≠ [] ∧
      (∀ c ∈ u, isStripChar c = true) ∧
      ∀ c, (simplify_service_name "svc-1-2").data.getLast? = some c → isStripChar c = false) ∧
    simplify_service_name "nodigits" = "nodigits" :=
  ⟨(claim_C6_amended "svc-1-2").1 (by decide),
   (claim_C6_amended "nodigits").2 (by decide)⟩

/-- Claim C7: simplify_service_name is idempotent. -/
theorem claim_C7 (s : String) :
    simplify_service_name (simplify_service_name s) = simplify_service_name s :=
  simplify_idem s

/-- Claim C7 witness: idempotence evaluated at the concrete name svc-1-2. -/
theorem claim_C7_witness :
    simplify_service_name (simplify_service_name "svc-1-2")
      = simplify_service_name "svc-1-2" :=
  claim_C7 "svc-1-2"

/-! ### ResultCache: the cache method (source lines 68-101)

The file system is modelled as a map from file names to an optional blob
with a modification time. A blob is either a deserializable payload, a
non-empty but corrupted byte string (pickle.load raises on it), or a
zero-size file. The single Python method cache(cache_type, data) both
writes (when data is truthy) and reads; it is modelled as one function
returning the new store and the returned value, or the raised error
(ValueError for an invalid type, the unpickling error for corruption). -/

/-- Contents of one cache file. -/
inductive Blob (α : Type) where
  | ok (data : α)
  | corrupt
  | zeroSize

/-- A cache file with its modification time. -/
structure FileBlob (α : Type) where
  mtime : Nat
  content : Blob α

/-- The os.path.getsize test: positive size. -/
def sizePos {α : Type} : Blob α → Bool
  | .zeroSize => false
  | _ => true

/-- Errors the cache method can raise. -/
inductive CacheErr where
  | invalidType
  | unpickling
deriving DecidableEq

/-- The file system visible to the cache method. -/
def Store (α : Type) : Type := String → Option (FileBlob α)

/-- Overwrite one file in the store, stamping it with the write time. -/
def storeWrite {α : Type} (st : Store α) (f : String) (b : FileBlob α) : Store α :=
  fun g => if g = f then some b else st g

/-- The cache_type dispatch at the top of the method: roles and
service_entries map to their file names, anything else raises ValueError. -/
def cache_file_name (cache_type : String) : Option String :=
  if cache_type = "roles" then some "roles.txt"
  else if cache_type = "service_entries" then some "service_entries.txt"
  else none

/-- The read path of the method: if the file exists, has positive size and
was modified within the last 3600 seconds, deserialize it (raising on
corruption); otherwise return none. -/
def cache_read {α : Type} (st : Store α) (now : Nat) (fname : String) :
    Except CacheErr (Store α × Option α) :=
  match st fname with
  | some blob =>
    if sizePos blob.content ∧ now < blob.mtime + 3600 then
      match blob.content with
      | .ok d => .ok (st, some d)
      | _ => .error .unpickling
    else .ok (st, none)
  | none => .ok (st, none)

/-- The cache method: dispatch on the type tag; if data is truthy write it
(returning none), otherwise fall through to the read path. The truthiness
test mirrors the Python `if data:` line, so a provided-but-falsy payload
is not written. -/
def cache_op {α : Type} (truthy : α → Bool) (st : Store α) (now : Nat)
    (cache_type : String) (data : Option α) :
    Except CacheErr (Store α × Option α) :=
  match cache_file_name cache_type with
  | none => .error .invalidType
  | some fname =>
    match data with
    | some d =>
      if truthy d then .ok (storeWrite st fname ⟨now, .ok d⟩, none)
      else cache_read st now fname
    | none => cache_read st now fname

/-- Python truthiness of a list payload. -/
def truthyList (l : List String) : Bool := !l.isEmpty

/-- A store holding a fresh role list written at time 0. -/
def st8 : Store (List String) :=
  storeWrite (fun _ => none) "roles.txt" ⟨0, .ok ["a"]⟩

/-- Claim C8 counterexample: writing the empty (falsy) payload over a
fresh prior value is silently skipped by the `if data:` guard — the call
itself returns the prior value, and a subsequent read still returns the
prior value, not the payload that was written. -/
theorem claim_C8_counterexample :
    cache_op truthyList st8 10 "roles" (some []) = .ok (st8, some ["a"]) ∧
    cache_op truthyList st8 10 "roles" none = .ok (st8, some ["a"]) ∧
    (["a"] : List String) ≠ [] := by
  refine ⟨rfl, rfl, by decide⟩

/-- Claim C8 (amended): for every valid cache type tag and every payload
that is truthy (non-empty), a cache write of the payload immediately
followed by a cache read of the same type within the 3600-second TTL
returns exactly the written payload, and the store afterwards holds the
written payload at the tag's file regardless of any prior value. -/
theorem claim_C8_amended {α : Type} (truthy : α → Bool) (st : Store α)
    (now latr : Nat) (cache_type fname : String) (d : α)
    (hf : cache_file_name cache_type = some fname)
    (ht : truthy d = true)
    (hfresh : latr < now + 3600) :
    cache_op truthy st now cache_type (some d)
      = .ok (storeWrite st fname ⟨now, .ok d⟩, none) ∧
    cache_op truthy (storeWrite st fname ⟨now, .ok d⟩) latr cache_type none
      = .ok (storeWrite st fname ⟨now, .ok d⟩, some d) := by
  constructor
  · unfold cache_op
    rw [hf]
    simp [ht]
  · unfold cache_op
    rw [hf]
    show cache_read (storeWrite st fname ⟨now, .ok d⟩) latr fname = _
    unfold cache_read storeWrite
    simp only [if_pos rfl]
    simp [sizePos, hfresh]

/-- Claim C8 amended witness: round-trip at a concrete store that already
holds an older value, payload the singleton list a, write at time 100 and
read at time 200. -/
theorem claim_C8_amended_witness :
    cache_op truthyList st8 100 "roles" (some ["b"])
      = .ok (storeWrite st8 "roles.txt" ⟨100, .ok ["b"]⟩, none) ∧
    cache_op truthyList (storeWrite st8 "roles.txt" ⟨100, .ok ["b"]⟩) 200 "roles" none
      = .ok (storeWrite st8 "roles.txt" ⟨100, .ok ["b"]⟩, some ["b"]) :=
  claim_C8_amended truthyList st8 100 200 "roles" "roles.txt" ["b"]
    rfl rfl (by decide)

/-- A store holding a fresh but corrupted roles cache file. -/
def st9 : Store (List String) :=
  storeWrite (fun _ => none) "roles.txt" ⟨0, .corrupt⟩

/-- Claim C9 counterexample: a fresh, non-empty, corrupted cache file does
not read as a miss — pickle.load has no exception handler around it, so
the read raises the deserialization error instead of returning nothing. -/
theorem claim_C9_counterexample :
    cache_op truthyList st9 10 "roles" none = .error .unpickling ∧
    (Except.error .unpickling :
        Except CacheErr (Store (List String) × Option (List String)))
      ≠ .ok (st9, none) := by
  refine ⟨rfl, fun h => Except.noConfusion h⟩

/-- Claim C9 (amended): if the backing file for a valid cache type exists,
is non-empty and fresh, but its contents cannot be deserialized, the read
raises the deserialization error (it is fatal), rather than behaving as a
cache miss. -/
theorem claim_C9_amended {α : Type} (truthy : α → Bool) (st : Store α)
    (now m : Nat) (cache_type fname : String)
    (hf : cache_file_name cache_type = some fname)
    (hst : st fname = some ⟨m, .corrupt⟩)
    (hfresh : now < m + 3600) :
    cache_op truthy st now cache_type none = .error .unpickling := by
  unfold cache_op
  rw [hf]
  show cache_read st now fname = _
  unfold cache_read
  rw [hst]
  simp [sizePos, hfresh]

/-- Claim C9 amended witness: the corrupted-store read evaluated at the
concrete store st9 at time 10. -/
theorem claim_C9_amended_witness :
    cache_op truthyList st9 10 "roles" none = .error .unpickling :=
  claim_C9_amended truthyList st9 10 0 "roles" "roles.txt" rfl rfl (by decide)

/-! ### The adjacency relation: service_entries, a defaultdict(set)

A Python defaultdict(set) is modelled with its key set made explicit,
because plain subscript access on a missing key inserts that key bound to
an empty set — an observable mutation of the key set. dd_access models
subscript access (returning the set and the possibly-grown dict), dd_add
models subscript access followed by set.add, and dd_find is the pure
mathematical reading of the mapping (empty set for absent keys). -/

/-- Model of a Python defaultdict(set) over string keys. -/
structure DDict where
  keys : Finset String
  val : String → Finset String

/-- Pure reading of the mapping: the value set of a present key, the
empty set for an absent one. No mutation. -/
def dd_find (d : DDict) (k : String) : Finset String :=
  if k ∈ d.keys then d.val k else ∅

/-- Subscript access on a defaultdict: a missing key is inserted bound to
the empty set; returns the set together with the updated dict. -/
def dd_access (d : DDict) (k : String) : Finset String × DDict :=
  if k ∈ d.keys then (d.val k, d)
  else (∅, ⟨insert k d.keys, fun j => if j = k then ∅ else d.val j⟩)

/-- Subscript access followed by set.add of one member. -/
def dd_add (d : DDict) (k : String) (v : String) : DDict :=
  let p := dd_access d k
  ⟨p.2.keys, fun j => if j = k then insert v p.1 else p.2.val j⟩

lemma dd_find_dd_add (d : DDict) (k v j : String) :
    dd_find (dd_add d k v) j
      = if j = k then insert v (dd_find d k) else dd_find d j := by
  unfold dd_add dd_access dd_find
  by_cases hk : k ∈ d.keys
  · simp only [if_pos hk]
    by_cases hj : j = k
    · subst hj
      simp [hk]
    · simp [hj]
  · simp only [if_neg hk]
    by_cases hj : j = k
    · subst hj
      simp [hk, Finset.mem_insert]
    · simp [hj, Finset.mem_insert]

/-- The body of a page of the fetch_firewall_rules loop (source lines
203-208): for each rule, the ingress role is normalized and the role whose
rules were fetched is added to the set keyed by that normalized name. -/
def fetch_firewall_rules_page (d : DDict) (source_role : String)
    (rules : List String) : DDict :=
  rules.foldl
    (fun d ingress_role =>
      dd_add d (simplify_service_name ingress_role) source_role) d

/-- Claim C2: processing a firewall rule naming ingress role R while
fetching rules for role S adds S to the set keyed by normalize(R), leaves
every other key unchanged, and in particular never adds normalize(R) to
the set keyed by S (whenever the two keys are distinct). -/
theorem claim_C2 (d : DDict) (S R : String) :
    dd_find (fetch_firewall_rules_page d S [R]) (simplify_service_name R)
      = insert S (dd_find d (simplify_service_name R)) ∧
    (∀ k, k ≠ simplify_service_name R →
      dd_find (fetch_firewall_rules_page d S [R]) k = dd_find d k) ∧
    (S ≠ simplify_service_name R →
      dd_find (fetch_firewall_rules_page d S [R]) S = dd_find d S) := by
  have hbody : fetch_firewall_rules_page d S [R]
      = dd_add d (simplify_service_name R) S := rfl
  refine ⟨?_, ?_, ?_⟩
  · rw [hbody, dd_find_dd_add]
    simp
  · intro k hk
    rw [hbody, dd_find_dd_add, if_neg hk]
  · intro hS
    rw [hbody, dd_find_dd_add, if_neg hS]

/-- A concrete dict with one key api holding one member x. -/
def dd2 : DDict :=
  ⟨{"api"}, fun k => if k = "api" then {"x"} else ∅⟩

/-- Claim C2 witness: one rule with ingress role api-1 processed for role
web on the concrete dict dd2 - the edge lands under key api (the
normalized ingress role) and the sets at other keys, web included, stay
as they were. -/
theorem claim_C2_witness :
    dd_find (fetch_firewall_rules_page dd2 "web" ["api-1"]) "api"
      = insert "web" (dd_find dd2 "api") ∧
    dd_find (fetch_firewall_rules_page dd2 "web" ["api-1"]) "billing"
      = dd_find dd2 "billing" ∧
    dd_find (fetch_firewall_rules_page dd2 "web" ["api-1"]) "web"
      = dd_find dd2 "web" := by
  have h1 : simplify_service_name "api-1" = "api" := by decide
  refine ⟨?_, ?_, ?_⟩
  · have := (claim_C2 dd2 "web" "api-1").1
    rwa [h1] at this
  · exact (claim_C2 dd2 "web" "api-1").2.1 "billing" (by rw [h1]; decide)
  · exact (claim_C2 dd2 "web" "api-1").2.2 (by rw [h1]; decide)

/-- One iteration of the fetch_service_entries item loop (source lines
163-171): the role name of the entry is normalized once, then each
backend name from the list (if the backends key is present at all) is
added to the set keyed by the normalized role. An entry whose backend
data is missing (the KeyError case) contributes nothing. -/
def fetch_service_entry (d : DDict) (entry : String × Option (List String)) :
    DDict :=
  let role := simplify_service_name entry.1
  match entry.2 with
  | none => d
  | some backends => backends.foldl (fun d b => dd_add d role b) d

/-- A full page of service entries. -/
def fetch_service_entries_page (d : DDict)
    (items : List (String × Option (List String))) : DDict :=
  items.foldl fetch_service_entry d

lemma dd_find_foldl_add (key : String) (bs : List String) :
    ∀ d : DDict,
      (∀ k, k ≠ key →
        dd_find (bs.foldl (fun d b => dd_add d key b) d) k = dd_find d k) ∧
      dd_find (bs.foldl (fun d b => dd_add d key b) d) key
        = dd_find d key ∪ bs.toFinset := by
  induction bs with
  | nil => intro d; simp
  | cons b t ih =>
      intro d
      constructor
      · intro k hk
        have h1 := (ih (dd_add d key b)).1 k hk
        simp only [List.foldl_cons]
        rw [h1, dd_find_dd_add, if_neg hk]
      · have h2 := (ih (dd_add d key b)).2
        simp only [List.foldl_cons]
        rw [h2, dd_find_dd_add, if_pos rfl]
        rw [List.toFinset_cons, Finset.insert_union, Finset.union_insert]

/-- An empty defaultdict. -/
def dd0 : DDict := ⟨∅, fun _ => ∅⟩

/-- Claim C4 counterexample: a service entry for role r-1 with declared
backend b-2 stores the backend name raw — the adjacency set under the
normalized key r holds b-2, a member that is not in normalized form. -/
theorem claim_C4_counterexample :
    dd_find (fetch_service_entries_page dd0 [("r-1", some ["b-2"])]) "r"
      = {"b-2"} ∧
    simplify_service_name "b-2" ≠ "b-2" := by
  constructor
  · rfl
  · decide

/-- Claim C4 (amended): in the forward-adjacency step the entry's role
name is normalized before being used as the key — so every key this step
touches is in normalized form — but the backend names are unioned into
that set exactly as they appear in the entry, without normalization. -/
theorem claim_C4_amended (d : DDict) (r : String) (bs : List String) :
    (∀ k, k ≠ simplify_service_name r →
      dd_find (fetch_service_entries_page d [(r, some bs)]) k = dd_find d k) ∧
    dd_find (fetch_service_entries_page d [(r, some bs)]) (simplify_service_name r)
      = dd_find d (simplify_service_name r) ∪ bs.toFinset ∧
    simplify_service_name (simplify_service_name r) = simplify_service_name r := by
  have hbody : fetch_service_entries_page d [(r, some bs)]
      = bs.foldl (fun d b => dd_add d (simplify_service_name r) b) d := rfl
  refine ⟨?_, ?_, simplify_idem r⟩
  · intro k hk
    rw [hbody]
    exact (dd_find_foldl_add (simplify_service_name r) bs d).1 k hk
  · rw [hbody]
    exact (dd_find_foldl_add (simplify_service_name r) bs d).2

/-- Claim C4 amended witness: the amended statement evaluated on the empty
dict for an entry with role r-1 and backends b-2 and c. -/
theorem claim_C4_amended_witness :
    dd_find (fetch_service_entries_page dd0 [("r-1", some ["b-2", "c"])]) "zzz"
      = dd_find dd0 "zzz" ∧
    dd_find (fetch_service_entries_page dd0 [("r-1", some ["b-2", "c"])])
        (simplify_service_name "r-1")
      = dd_find dd0 (simplify_service_name "r-1") ∪ ["b-2", "c"].toFinset ∧
    simplify_service_name (simplify_service_name "r-1")
      = simplify_service_name "r-1" :=
  ⟨(claim_C4_amended dd0 "r-1" ["b-2", "c"]).1 "zzz" (by decide),
   (claim_C4_amended dd0 "r-1" ["b-2", "c"]).2.1,
   (claim_C4_amended dd0 "r-1" ["b-2", "c"]).2.2⟩

/-- get_backends (source lines 246-251): normalize the requested service
name, then subscript the defaultdict — which inserts the key when it is
absent. Returns the set and the possibly-mutated dict. -/
def get_backends (d : DDict) (service : String) : Finset String × DDict :=
  dd_access d (simplify_service_name service)

/-- A concrete dict with one key a. -/
def dd10 : DDict := ⟨{"a"}, fun k => if k = "a" then {"x"} else ∅⟩

/-- Claim C10 counterexample: calling get_backends for a role with no
entry mutates the adjacency relation — the defaultdict subscript inserts
the missing normalized key, so the key set is not identical afterwards. -/
theorem claim_C10_counterexample :
    (get_backends dd10 "b").2.keys ≠ dd10.keys ∧
    (get_backends dd10 "b").2.keys = {"b", "a"} := by
  constructor
  · decide
  · decide

/-- Claim C10 (amended): get_backends leaves every value readable from the
adjacency relation unchanged (dd_find agrees at every key before and
after, so pre-existing value sets are untouched), and it returns the set
stored under the normalized role; however the key set afterwards is the
old key set with the normalized queried role inserted — a role with no
entry is added as a new key bound to the empty set rather than leaving the
key set identical. -/
theorem claim_C10_amended (d : DDict) (service : String) :
    (∀ k, dd_find (get_backends d service).2 k = dd_find d k) ∧
    (get_backends d service).2.keys
      = insert (simplify_service_name service) d.keys ∧
    (get_backends d service).1 = dd_find d (simplify_service_name service) := by
  refine ⟨?_, ?_, ?_⟩
  · intro k
    unfold get_backends dd_access dd_find
    by_cases h : simplify_service_name service ∈ d.keys
    · simp only [if_pos h]
    · simp only [if_neg h]
      by_cases hk : k = simplify_service_name service
      · subst hk
        simp [h]
      · simp [hk, Finset.mem_insert]
  · unfold get_backends dd_access
    by_cases h : simplify_service_name service ∈ d.keys
    · simp only [if_pos h]
      exact (Finset.insert_eq_self.mpr h).symm
    · simp only [if_neg h]
  · unfold get_backends dd_access dd_find
    by_cases h : simplify_service_name service ∈ d.keys
    · simp only [if_pos h]
    · simp only [if_neg h]

/-- Claim C10 amended witness: get_backends for the unknown role b on the
concrete dict dd10 — the read of key a is unchanged, the key set grows by
the normalized b, and the returned set is the empty set stored nowhere. -/
theorem claim_C10_amended_witness :
    dd_find (get_backends dd10 "b").2 "a" = dd_find dd10 "a" ∧
    (get_backends dd10 "b").2.keys = insert (simplify_service_name "b") dd10.keys ∧
    (get_backends dd10 "b").1 = dd_find dd10 (simplify_service_name "b") :=
  ⟨(claim_C10_amended dd10 "b").1 "a",
   (claim_C10_amended dd10 "b").2.1,
   (claim_C10_amended dd10 "b").2.2⟩

/-! ### Collector, role enumeration: get_roles_list (source lines 112-147)

The server is modelled as the sequence of pages it serves: the call with
url None fetches the head page, and the next cursor of each page points at
the page after it, until the list runs out. Each invocation builds a local
list roles from the page it fetched, recurses when a next cursor exists,
extends roles with the recursive calls return value only when that value
is not None, then stores roles into self.roles and the cache and returns
None. The function models one invocation and yields the pair
(value stored into self.roles by this invocation, value returned to the
caller). Since the Python function ends with a bare return, the second
component is always none, which is what the theorem exposes: the outermost
invocation stores only its own page. -/

/-- One invocation of get_roles_list on the current page and the list of
pages still reachable through next cursors. -/
def get_roles_aux : List String → List (List String) → List String × Option (List String)
  | page, [] => (page, none)
  | page, p :: ps =>
    let inner := get_roles_aux p ps
    let roles := match inner.2 with
      | some m => page ++ m
      | none => page
    (roles, none)

/-- The role list stored by get_roles_list with refresh forced (url None),
against a server serving the given non-empty sequence of pages. -/
def get_roles_list (pages : List (List String)) : List String :=
  match pages with
  | [] => []
  | page :: rest => (get_roles_aux page rest).1

/-- Claim C1: with two pages serving a and b, the stored role list is only
the first page — the recursive call always returns None (the source has no
return of its accumulated list, though its own comment expects one), so
the extension with later pages never happens and the outer invocation
overwrites self.roles and the cache with page one alone. The claim and the
spec say the concatenation of all pages should be stored. -/
theorem claim_C1 :
    get_roles_list [["a"], ["b"]] = ["a"] ∧
    get_roles_list [["a"], ["b"]] ≠ ["a", "b"] := by
  constructor
  · rfl
  · decide

/-! ### GraphBuilder: build_graph (source lines 253-269)

networkx DiGraph is modelled as a node set plus a directed edge set;
add_edge inserts both endpoints and the edge. The database exclusion
dbre = re.compile with pattern mysql or redis is a substring search. The
adjacency relation is read through get_backends, which only normalizes the
lookup key (the defaultdict growth it causes never changes any value
read), so for graph building it is modelled as a function from the
normalized name to the list of backends in iteration order; quantifying
over all such functions covers every possible Python set iteration order.
The recursion of build_graph is fuel-indexed: the invariants below are
proved for every fuel value, hence for the fuel at which the run
completes. -/

/-- A networkx directed graph: nodes and directed edges. -/
structure DiGraph where
  nodes : Finset String
  edges : Finset (String × String)

/-- networkx add_edge: inserts both endpoints and the directed edge. -/
def add_edge (g : DiGraph) (a b : String) : DiGraph :=
  ⟨insert a (insert b g.nodes), insert (a, b) g.edges⟩

/-- Naive substring search used to model re.search. -/
def matchesAt : List Char → List Char → Bool
  | [], _ => true
  | _ :: _, [] => false
  | a :: as, b :: bs => a == b && matchesAt as bs

/-- Whether the first character list occurs inside the second. -/
def hasSub (needle : List Char) : List Char → Bool
  | [] => needle.isEmpty
  | c :: t => matchesAt needle (c :: t) || hasSub needle t

/-- The compiled dbre regex: the name contains mysql or redis. -/
def dbSearch (s : String) : Bool :=
  hasSub "mysql".data s.data || hasSub "redis".data s.data

/-- The loop body of build_graph over the dependency list: skip a
dependency equal to the source, skip when an edge already exists in either
direction, skip when either endpoint matches the database pattern,
otherwise add the edge and recurse into the dependency via step. -/
def build_step (step : String → DiGraph → DiGraph) (service : String) :
    List String → DiGraph → DiGraph
  | [], g => g
  | dep :: deps, g =>
    if dep = service then build_step step service deps g
    else if (service, dep) ∈ g.edges ∨ (dep, service) ∈ g.edges then
      build_step step service deps g
    else if dbSearch service || dbSearch dep then build_step step service deps g
    else build_step step service deps (step dep (add_edge g service dep))

/-- build_graph with fuel bounding the recursion depth: look up the
dependencies of the normalized service name and run the loop, recursing
with one unit of fuel less. -/
def build_graph (adj : String → List String) : Nat → String → DiGraph → DiGraph
  | 0, _, g => g
  | fuel + 1, service, g =>
    build_step (build_graph adj fuel) service (adj (simplify_service_name service)) g

/-- The three invariants of claim C3, phrased over the finite edge set so
they are decidable on concrete graphs: no self-loops, no anti-parallel
edge pairs, no endpoint matching the database pattern. -/
def GraphInv (g : DiGraph) : Prop :=
  ∀ e ∈ g.edges, e.1 ≠ e.2 ∧ (e.2, e.1) ∉ g.edges ∧
    dbSearch e.1 = false ∧ dbSearch e.2 = false

instance decGraphInv (g : DiGraph) : Decidable (GraphInv g) := by
  unfold GraphInv
  infer_instance

lemma graphInv_add_edge {g : DiGraph} {service dep : String}
    (hg : GraphInv g) (hne : dep ≠ service)
    (hnot : ¬((service, dep) ∈ g.edges ∨ (dep, service) ∈ g.edges))
    (hdb : ¬(dbSearch service || dbSearch dep) = true) :
    GraphInv (add_edge g service dep) := by
  push_neg at hnot
  rw [Bool.or_eq_true] at hdb
  push_neg at hdb
  intro e he
  rw [add_edge, Finset.mem_insert] at he
  rcases he with he | he
  · subst he
    refine ⟨fun h => hne h.symm, ?_, ?_, ?_⟩
    · rw [add_edge, Finset.mem_insert]
      rintro (h | h)
      · exact hne (congrArg Prod.fst h)
      · exact hnot.2 h
    · simpa using hdb.1
    · simpa using hdb.2
  · obtain ⟨h1, h2, h3, h4⟩ := hg e he
    refine ⟨h1, ?_, h3, h4⟩
    rw [add_edge, Finset.mem_insert]
    rintro (h | h)
    · apply hnot.2
      have hfst : e.2 = service := congrArg Prod.fst h
      have hsnd : e.1 = dep := congrArg Prod.snd h
      rw [← hfst, ← hsnd]
      exact he
    · exact h2 h

lemma graphInv_build_step (step : String → DiGraph → DiGraph)
    (hstep : ∀ s g, GraphInv g → GraphInv (step s g)) (service : String) :
    ∀ (deps : List String) (g : DiGraph), GraphInv g →
      GraphInv (build_step step service deps g) := by
  intro deps
  induction deps with
  | nil => intro g hg; exact hg
  | cons dep rest ih =>
      intro g hg
      rw [build_step]
      by_cases h1 : dep = service
      · rw [if_pos h1]; exact ih g hg
      · rw [if_neg h1]
        by_cases h2 : (service, dep) ∈ g.edges ∨ (dep, service) ∈ g.edges
        · rw [if_pos h2]; exact ih g hg
        · rw [if_neg h2]
          by_cases h3 : (dbSearch service || dbSearch dep) = true
          · rw [if_pos h3]; exact ih g hg
          · rw [if_neg h3]
            exact ih _ (hstep dep _ (graphInv_add_edge hg h1 h2 h3))

/-- Claim C3: for every adjacency relation, every seed role, every fuel
bound, and every starting graph satisfying the invariants (as any graph
build_graph has itself produced from the empty graph does), the graph
returned by build_graph still has no self-loop, at most one direction per
unordered node pair, and no edge touching a name containing mysql or
redis. -/
theorem claim_C3 (adj : String → List String) (fuel : Nat) (seed : String)
    (g : DiGraph) (hg : GraphInv g) : GraphInv (build_graph adj fuel seed g) := by
  induction fuel generalizing seed g with
  | zero => exact hg
  | succ n ih =>
      rw [build_graph]
      exact graphInv_build_step (build_graph adj n) (fun s g h => ih s g h)
        seed (adj (simplify_service_name seed)) g hg

/-- A concrete adjacency relation with a two-node cycle between A and B, a
self-dependency of A, and a database backend. -/
def adj3 : String → List String :=
  fun s => if s = "A" then ["B", "A", "mysql-db"]
           else if s = "B" then ["A", "C"] else []

/-- The empty graph. -/
def emptyGraph : DiGraph := ⟨∅, ∅⟩

/-- Claim C3 witness: the empty graph satisfies the invariants, and so
does the graph built from seed A over adj3, which exercises the self-loop
skip, the anti-parallel skip and the database skip. -/
theorem claim_C3_witness :
    GraphInv emptyGraph ∧ GraphInv (build_graph adj3 5 "A" emptyGraph) :=
  ⟨by decide, claim_C3 adj3 5 "A" emptyGraph (by decide)⟩

/-! ### GraphPruner: clean_graph (source lines 271-282)

graph.degree on a networkx DiGraph is in-degree plus out-degree. Each pass
first materializes the full list of nodes to remove from the degrees of
the current graph (the Python list comprehension runs to completion before
any removal), then removes them; removing a node also removes its incident
edges, and removing a fixed set of nodes one by one gives the same graph
as removing them all at once, which is how removeNodes states it. The
thresholds are Ints, as the command line arguments are Python ints. -/

/-- networkx degree on a directed graph: out-degree plus in-degree. -/
def degree (g : DiGraph) (n : String) : Nat :=
  (g.edges.filter (fun e => e.1 = n)).card + (g.edges.filter (fun e => e.2 = n)).card

/-- Remove a set of nodes and every edge touching one of them. -/
def removeNodes (g : DiGraph) (bad : Finset String) : DiGraph :=
  ⟨g.nodes \ bad, g.edges.filter (fun e => ¬(e.1 ∈ bad ∨ e.2 ∈ bad))⟩

/-- The first pass of clean_graph: remove every node whose degree in the
input graph is strictly greater than max_connections. -/
def clean_pass1 (g : DiGraph) (maxConn : Int) : DiGraph :=
  removeNodes g (g.nodes.filter fun n => maxConn < (degree g n : Int))

/-- clean_graph from the source: the high-degree pass, then the low-degree
pass on the result with degrees recomputed. -/
def clean_graph (g : DiGraph) (minConn maxConn : Int) : DiGraph :=
  let g1 := clean_pass1 g maxConn
  removeNodes g1 (g1.nodes.filter fun n => (degree g1 n : Int) ≤ minConn)

/-- The example graph of claim C5: X has degree 3; A, B and Y hang off X
with degree 1 each. -/
def gEx : DiGraph :=
  ⟨{"X", "A", "B", "Y"}, {("X", "A"), ("X", "B"), ("X", "Y")}⟩

/-- Claim C5: pass one keeps exactly the nodes whose degree in the input
graph is at most maxConn; pass two then keeps exactly the nodes of the
pass-one graph whose degree, recomputed there, is strictly above minConn.
In particular, on gEx with min 0 and max 1, the degree-3 node X goes in
pass one, and Y — degree 1 before, degree 0 once X is gone — survives pass
one and goes in pass two. -/
theorem claim_C5 :
    (∀ (g : DiGraph) (minConn maxConn : Int),
      (∀ n, n ∈ (clean_pass1 g maxConn).nodes ↔
        n ∈ g.nodes ∧ (degree g n : Int) ≤ maxConn) ∧
      (∀ n, n ∈ (clean_graph g minConn maxConn).nodes ↔
        n ∈ (clean_pass1 g maxConn).nodes ∧
          minConn < (degree (clean_pass1 g maxConn) n : Int))) ∧
    (degree gEx "X" = 3 ∧
     ("X" : String) ∉ (clean_pass1 gEx 1).nodes ∧
     ("Y" : String) ∈ (clean_pass1 gEx 1).nodes ∧
     degree (clean_pass1 gEx 1) "Y" = 0 ∧
     ("Y" : String) ∉ (clean_graph gEx 0 1).nodes) := by
  constructor
  · intro g minConn maxConn
    constructor
    · intro n
      simp only [clean_pass1, removeNodes, Finset.mem_sdiff, Finset.mem_filter, not_lt]
      constructor
      · rintro ⟨hn, h⟩
        refine ⟨hn, ?_⟩
        by_contra hc
        push_neg at hc
        exact h ⟨hn, hc⟩
      · rintro ⟨hn, h⟩
        exact ⟨hn, fun hx => absurd h (not_le.mpr hx.2)⟩
    · intro n
      show n ∈ (removeNodes (clean_pass1 g maxConn) _).nodes ↔ _
      simp only [removeNodes, Finset.mem_sdiff, Finset.mem_filter, not_le]
      constructor
      · rintro ⟨hn, h⟩
        refine ⟨hn, ?_⟩
        by_contra hc
        push_neg at hc
        exact h ⟨hn, hc⟩
      · rintro ⟨hn, h⟩
        exact ⟨hn, fun hx => absurd h (not_lt.mpr hx.2)⟩
  · refine ⟨by decide, by decide, by decide, by decide, by decide⟩

end BattlestarGrapher
